import Mathlib

/-!
# Verification of the EMIT data-access workflow

A shallow embedding of the search / filter / stream / download workflow of
the notebook `python/how-tos/How_to_find_and_access_EMIT_data.ipynb`,
together with proofs of the testable properties stated in the
specification.

URLs, path segments and file contents are modelled as `List Char` /
`List Nat`; the Python string operations used by the notebook
(`str.split`, the `in` substring test, f-string concatenation) are
translated to executable Lean functions below. Operations the notebook
delegates to external libraries (geopandas `total_bounds`, the
`earthaccess` granule search) are modelled from the specification's
contract and are marked as such in their doc comments.
-/

namespace Emit

/-- A URL or path, modelled as its character list. -/
abbrev Str := List Char

/-- Translation of Python `s.split(sep)` for a one-character separator:
splits `s` at every occurrence of `sep`; the result is always non-empty
and may contain empty segments. Mirrors `url.split('/')` in cells 29, 31
and 33 of the notebook. -/
def splitOn (sep : Char) : Str → List Str
  | [] => [[]]
  | c :: rest =>
    match splitOn sep rest with
    | [] => [[]]
    | hd :: tl => if c = sep then [] :: hd :: tl else (c :: hd) :: tl

/-- Translation of `url.split('/')[-1]`: the final path segment of a URL
(the part after the last `'/'`, or the whole string when it has none). -/
def lastSegment (s : Str) : Str := (splitOn '/' s).getLastD []

/-- Translation of the Python substring test `needle in hay` on strings:
`true` iff `needle` occurs contiguously inside `hay` (case-sensitive;
the empty needle occurs in every string). -/
def containsSub (hay needle : Str) : Bool :=
  needle.isPrefixOf hay ||
    match hay with
    | [] => false
    | _ :: t => containsSub t needle

/-- The asset-filtering loop of cell 29, written exactly as the nested
Python loop: step through each granule's URL list in order and append
`url` to the accumulator whenever
`any(asset in asset_name for asset in desired_assets)` holds for
`asset_name = url.split('/')[-1]`. -/
def filteredAssetLinks (emitResultsUrls : List (List Str))
    (desiredAssets : List Str) : List Str :=
  emitResultsUrls.foldl
    (fun acc granule =>
      granule.foldl
        (fun acc2 url =>
          if desiredAssets.any (fun asset => containsSub (lastSegment url) asset)
          then acc2 ++ [url] else acc2)
        acc)
    []

/-- The predicate the filter loop applies to a single URL. -/
def keepUrl (desiredAssets : List Str) (url : Str) : Bool :=
  desiredAssets.any (fun asset => containsSub (lastSegment url) asset)

/-- Python list indexing errors. -/
inductive PyError where
  | indexError : PyError
deriving DecidableEq

/-- Translation of Python list subscription `xs[i]` for a non-negative
index: the element when `i` is in bounds, an `IndexError` otherwise. -/
def listGetItem {α : Type} (xs : List α) (i : Nat) : Except PyError α :=
  match xs.get? i with
  | some a => Except.ok a
  | none => Except.error PyError.indexError

/-- The streaming cell (cell 31) selects its URL by
`url = filtered_asset_links[0]`, unconditionally. -/
def streamUrl (filteredLinks : List Str) : Except PyError Str :=
  listGetItem filteredLinks 0

/-- File contents, modelled as byte lists. -/
abbrev Bytes := List Nat

/-- The chunk size of cell 33: `chunk_size=64*1024*1024`. -/
def chunkSize : Nat := 64 * 1024 * 1024

/-- Translation of `src.iter_content(chunk_size=n)`: the remote content cut
into consecutive chunks, each non-empty and of size at most `n` (the last
chunk may be shorter); an empty body yields no chunks. -/
def chunksOf {α : Type} (n : Nat) : List α → List (List α)
  | [] => []
  | a :: as => (a :: as.take (n - 1)) :: chunksOf n (as.drop (n - 1))
termination_by l => l.length
decreasing_by simp only [List.length_drop, List.length_cons]; omega

/-- The bytes written by the inner `for chunk in src.iter_content(...):
dst.write(chunk)` loop of cell 33: chunks written sequentially into the
(fresh) destination file. -/
def writtenBytes (content : Bytes) : Bytes :=
  (chunksOf chunkSize content).foldl (fun acc chunk => acc ++ chunk) []

/-- A local filesystem: an association list from paths to file contents.
The head entry shadows later ones, so prepending models a (new) write. -/
structure FileSystem where
  files : List (Str × Bytes)

/-- Content of the file at `p`, when one exists. -/
def FileSystem.lookup (fs : FileSystem) (p : Str) : Option Bytes :=
  fs.files.lookup p

/-- Translation of `os.path.isfile(fp)`. -/
def FileSystem.isfile (fs : FileSystem) (p : Str) : Bool :=
  (fs.lookup p).isSome

/-- The fixed relative data directory of `fp = f'../../data/{granule_asset_id}'`. -/
def dataDir : Str := "../../data/".toList

/-- The destination path of an asset URL in cell 33:
`granule_asset_id = url.split('/')[-1]; fp = f'../../data/{granule_asset_id}'`. -/
def destPath (url : Str) : Str := dataDir ++ lastSegment url

/-- One iteration of the download loop of cell 33 for a single URL:
skip when `os.path.isfile(fp)`, otherwise issue one GET request and write
the streamed chunks to a new file. Returns the updated filesystem and the
list of URLs for which a request was issued. `remote` maps a URL to the
remote resource's bytes. -/
def downloadOne (remote : Str → Bytes) (fs : FileSystem) (url : Str) :
    FileSystem × List Str :=
  if fs.isfile (destPath url) then (fs, [])
  else (⟨(destPath url, writtenBytes (remote url)) :: fs.files⟩, [url])

/-- The full download loop of cell 33 over the filtered asset links,
threading the filesystem through the per-URL step and collecting the
issued requests. -/
def downloadLoop (remote : Str → Bytes) (fs : FileSystem) :
    List Str → FileSystem × List Str
  | [] => (fs, [])
  | url :: rest =>
    ((downloadLoop remote (downloadOne remote fs url).1 rest).1,
      (downloadOne remote fs url).2
        ++ (downloadLoop remote (downloadOne remote fs url).1 rest).2)

/-- Modelled from the spec: the notebook derives its bounding box with
`geojson.total_bounds` (cell 14), a geopandas library routine that is not
part of this repository. Per the spec, "a bounding box derived from a
polygon's total extent equals `(min_lon, min_lat, max_lon, max_lat)` over
all polygon vertices". Coordinates are modelled as rationals; the
non-empty vertex list is given as a head vertex and the remaining ones. -/
def totalBounds (v : ℚ × ℚ) (vs : List (ℚ × ℚ)) : ℚ × ℚ × ℚ × ℚ :=
  vs.foldl
    (fun b p => (min b.1 p.1, min b.2.1 p.2, max b.2.2.1 p.1, max b.2.2.2 p.2))
    (v.1, v.2, v.1, v.2)

/-- A raw (loosely-typed) spatial filter parameter, one of the three
mutually substitutable kinds the notebook passes to the granule search
(cells 11, 16, 20): point and bounding box as raw coordinate lists,
polygon as a list of lon/lat pairs. -/
inductive SpatialParam where
  | point (coords : List ℚ)
  | boundingBox (coords : List ℚ)
  | polygon (coords : List (ℚ × ℚ))

/-- Well-formedness of a spatial filter, in the words of the spec: point
= 2 floats; bbox = 4 floats in min-lon/min-lat/max-lon/max-lat order;
polygon = closed ring of at least 4 coordinate pairs, first equal to
last. -/
def SpatialParam.wellFormed : SpatialParam → Prop
  | .point cs => cs.length = 2
  | .boundingBox [minLon, minLat, maxLon, maxLat] => minLon ≤ maxLon ∧ minLat ≤ maxLat
  | .boundingBox _ => False
  | .polygon cs => 4 ≤ cs.length ∧ cs.head? = cs.getLast?

/-- Modelled from the spec: granule search is performed by the external
`earthaccess.search_data` client, which is not part of this repository;
the spec requires malformed spatial filter parameters to fail fast with a
descriptive error rather than silently degrading. -/
def validateSpatial : SpatialParam → Except Str Unit
  | .point cs =>
    if cs.length = 2 then Except.ok ()
    else Except.error "point must be a pair of floats lon, lat".toList
  | .boundingBox [minLon, minLat, maxLon, maxLat] =>
    if minLon ≤ maxLon ∧ minLat ≤ maxLat then Except.ok ()
    else Except.error "bounding box must be ordered min-lon, min-lat, max-lon, max-lat".toList
  | .boundingBox _ =>
    Except.error "bounding box must be 4 floats".toList
  | .polygon cs =>
    if 4 ≤ cs.length ∧ cs.head? = cs.getLast? then Except.ok ()
    else Except.error "polygon must be a closed ring of at least 4 coordinate pairs, first equal to last".toList

/-- Modelled from the spec: the temporal range of a granule search must
satisfy start ≤ end; timestamps are modelled as rationals. -/
def validateTemporal (t : ℚ × ℚ) : Except Str Unit :=
  if t.1 ≤ t.2 then Except.ok ()
  else Except.error "temporal range start must not be after end".toList

/-- The query parameters of a granule search: spatial filter, temporal
range and result-count cap (the notebook fixes the collection short name,
which does not affect validation). -/
structure SearchParams where
  spatial : SpatialParam
  temporal : ℚ × ℚ
  count : Nat

/-- Modelled from the spec: the granule search contract of spec section
4.1 — validate the filter parameters, then return the catalog's ordered
granule records (each carrying its asset URL list) capped at the
requested count; zero matches yield the empty sequence as a valid,
non-error outcome. `catalog` stands for the remote CMR catalog's
response. -/
def searchData (catalog : SearchParams → List (List Str)) (ps : SearchParams) :
    Except Str (List (List Str)) :=
  match validateSpatial ps.spatial with
  | Except.error e => Except.error e
  | Except.ok _ =>
    match validateTemporal ps.temporal with
    | Except.error e => Except.error e
    | Except.ok _ => Except.ok ((catalog ps).take ps.count)

/-- `splitOn` never returns the empty list, so Python's `[-1]` index on it
is always in bounds. -/
theorem splitOn_ne_nil (sep : Char) (s : Str) : splitOn sep s ≠ [] := by
  cases s with
  | nil => simp [splitOn]
  | cons c rest =>
    simp only [splitOn]
    cases h : splitOn sep rest with
    | nil => simp
    | cons hd tl =>
      by_cases hc : c = sep <;> simp [hc]

/-- The Boolean substring test agrees with the `List.IsInfix` relation. -/
theorem containsSub_iff_isInfix (hay needle : Str) :
    containsSub hay needle = true ↔ needle <:+: hay := by
  induction hay with
  | nil =>
    simp only [containsSub, Bool.or_eq_true, List.isPrefixOf_iff_prefix]
    constructor
    · rintro (h | h)
      · exact h.isInfix
      · cases h
    · intro h
      exact Or.inl (List.prefix_iff_eq_take.mpr (by simpa using List.eq_nil_of_infix_nil h ▸ rfl))
  | cons a t ih =>
    simp only [containsSub, Bool.or_eq_true, List.isPrefixOf_iff_prefix, ih]
    constructor
    · rintro (h | h)
      · exact h.isInfix
      · exact h.trans (List.suffix_cons a t).isInfix
    · intro h
      rcases List.infix_cons_iff.mp h with h | h
      · exact Or.inl h
      · exact Or.inr h

theorem inner_foldl_eq_filter (desiredAssets : List Str) (acc : List Str)
    (granule : List Str) :
    granule.foldl
      (fun acc2 url =>
        if desiredAssets.any (fun asset => containsSub (lastSegment url) asset)
        then acc2 ++ [url] else acc2)
      acc = acc ++ granule.filter (keepUrl desiredAssets) := by
  induction granule generalizing acc with
  | nil => simp
  | cons u rest ih =>
    rw [List.foldl_cons, List.filter_cons]
    by_cases h : desiredAssets.any (fun asset => containsSub (lastSegment u) asset)
    · rw [if_pos h, if_pos (show keepUrl desiredAssets u = true from h), ih,
        List.append_assoc, List.singleton_append]
    · rw [if_neg h, if_neg (show ¬keepUrl desiredAssets u = true from h), ih]

theorem filteredAssetLinks_from (emitResultsUrls : List (List Str))
    (desiredAssets : List Str) (acc : List Str) :
    emitResultsUrls.foldl
      (fun acc granule =>
        granule.foldl
          (fun acc2 url =>
            if desiredAssets.any (fun asset => containsSub (lastSegment url) asset)
            then acc2 ++ [url] else acc2)
          acc)
      acc = acc ++ emitResultsUrls.flatten.filter (keepUrl desiredAssets) := by
  induction emitResultsUrls generalizing acc with
  | nil => simp
  | cons g rest ih =>
    rw [List.foldl_cons, ih, List.flatten_cons, List.filter_append,
      ← List.append_assoc]
    show (g.foldl _ acc) ++ _ = _
    rw [inner_foldl_eq_filter]

/-- The filter loop is the order-preserving filter of the flattened URL
list by the desired-substring predicate. -/
theorem filteredAssetLinks_eq_filter_join (emitResultsUrls : List (List Str))
    (desiredAssets : List Str) :
    filteredAssetLinks emitResultsUrls desiredAssets
      = emitResultsUrls.flatten.filter (keepUrl desiredAssets) := by
  have h : filteredAssetLinks emitResultsUrls desiredAssets
      = [] ++ emitResultsUrls.flatten.filter (keepUrl desiredAssets) :=
    filteredAssetLinks_from emitResultsUrls desiredAssets []
  rw [List.nil_append] at h
  exact h

/-- Concatenating the chunks recovers the original content. -/
theorem chunksOf_flatten {α : Type} (n : Nat) (l : List α) :
    (chunksOf n l).flatten = l := by
  induction l using chunksOf.induct n with
  | case1 => rw [chunksOf]; rfl
  | case2 a as ih =>
    rw [chunksOf, List.flatten_cons, ih, List.cons_append, List.take_append_drop]

theorem foldl_append_eq_flatten {α : Type} (chunks : List (List α))
    (init : List α) :
    chunks.foldl (fun acc chunk => acc ++ chunk) init = init ++ chunks.flatten := by
  induction chunks generalizing init with
  | nil => simp
  | cons c rest ih => simp [ih]

/-- The sequentially written chunks reassemble the full remote content. -/
theorem writtenBytes_eq (content : Bytes) : writtenBytes content = content := by
  rw [writtenBytes, foldl_append_eq_flatten, List.nil_append, chunksOf_flatten]

/-- Claim C1: the asset-filtering step equals the order-preserving filter
of the flattened per-granule URL lists, keeping exactly the URLs whose
final path segment contains at least one desired substring
(case-sensitive containment, i.e. `List.IsInfix` on character lists). -/
theorem C1_filter_order_and_exactness (emitResultsUrls : List (List Str))
    (desiredAssets : List Str) :
    filteredAssetLinks emitResultsUrls desiredAssets
        = emitResultsUrls.flatten.filter (keepUrl desiredAssets)
      ∧ ∀ url : Str,
        keepUrl desiredAssets url = true
          ↔ ∃ asset ∈ desiredAssets, asset <:+: lastSegment url := by
  refine ⟨filteredAssetLinks_eq_filter_join _ _, fun url => ?_⟩
  simp only [keepUrl, List.any_eq_true, containsSub_iff_isInfix]

/-- Claim C4: filtering the three-URL granule list of the spec's example
against the single desired substring `"RFL_"` keeps exactly the
reflectance URL; the uncertainty product is excluded because `"RFLUNC"`
does not contain `"RFL_"`. -/
theorem C4_rfl_example :
    filteredAssetLinks
        [[".../EMIT_RFL_001.nc".toList, ".../EMIT_RFLUNC_001.nc".toList,
          ".../EMIT_MASK_001.nc".toList]]
        ["RFL_".toList]
      = [".../EMIT_RFL_001.nc".toList] := by
  rfl

/-- Claim C6: with an empty desired-substring set the filter keeps
nothing: `any` over an empty list is `False`, so the output is empty for
every input. -/
theorem C6_empty_desired (emitResultsUrls : List (List Str)) :
    filteredAssetLinks emitResultsUrls [] = [] := by
  rw [filteredAssetLinks_eq_filter_join]
  simp [keepUrl]

/-- The empty string is a substring of every string. -/
theorem containsSub_nil (hay : Str) : containsSub hay [] = true :=
  (containsSub_iff_isInfix hay []).mpr List.nil_infix

/-- Claim C10: if the desired-substring set contains the empty string,
every URL is kept and the output is the order-preserving flattening of
all per-granule URL lists. -/
theorem C10_empty_string_selects_all (emitResultsUrls : List (List Str))
    (desiredAssets : List Str) (h : [] ∈ desiredAssets) :
    filteredAssetLinks emitResultsUrls desiredAssets
      = emitResultsUrls.flatten := by
  rw [filteredAssetLinks_eq_filter_join]
  apply List.filter_eq_self.mpr
  intro url _
  exact List.any_eq_true.mpr ⟨[], h, containsSub_nil (lastSegment url)⟩

/-- Witness for C10 at a concrete input: desired set `[""]`, one granule
with two URLs, all kept. -/
theorem C10_empty_string_selects_all_witness :
    ([] : Str) ∈ ([[]] : List Str)
      ∧ filteredAssetLinks [["a/b".toList, "a/c".toList]] [[]]
          = [["a/b".toList, "a/c".toList]].flatten :=
  ⟨by decide, C10_empty_string_selects_all [["a/b".toList, "a/c".toList]] [[]]
    (by decide)⟩

/-- Claim C2: when no file exists at the destination path, the download
step issues one request, creates exactly one new local file (all other
entries untouched), whose content is the sequence of chunks written in
order, equal to the full remote content, with byte length equal to the
remote resource's length. -/
theorem C2_download_creates_file (remote : Str → Bytes) (fs : FileSystem)
    (url : Str) (h : fs.isfile (destPath url) = false) :
    (downloadOne remote fs url).1.files
        = (destPath url, writtenBytes (remote url)) :: fs.files
      ∧ writtenBytes (remote url) = remote url
      ∧ ((downloadOne remote fs url).1.lookup (destPath url)).map List.length
          = some (remote url).length
      ∧ (downloadOne remote fs url).2 = [url] := by
  rw [downloadOne, if_neg (by simp [h])]
  refine ⟨rfl, writtenBytes_eq _, ?_, rfl⟩
  simp [FileSystem.lookup, List.lookup, writtenBytes_eq]

/-- Witness for C2 at a concrete input: an empty filesystem and a
three-byte remote resource. -/
theorem C2_download_creates_file_witness :
    (FileSystem.mk []).isfile (destPath "https://host/EMIT_RFL_001.nc".toList)
        = false
      ∧ ((downloadOne (fun _ => [7, 8, 9]) ⟨[]⟩
            "https://host/EMIT_RFL_001.nc".toList).1.files
          = (destPath "https://host/EMIT_RFL_001.nc".toList,
              writtenBytes ((fun _ => ([7, 8, 9] : Bytes))
                "https://host/EMIT_RFL_001.nc".toList)) :: []
        ∧ writtenBytes ((fun _ => ([7, 8, 9] : Bytes))
            "https://host/EMIT_RFL_001.nc".toList) = [7, 8, 9]
        ∧ (((downloadOne (fun _ => [7, 8, 9]) ⟨[]⟩
              "https://host/EMIT_RFL_001.nc".toList).1.lookup
                (destPath "https://host/EMIT_RFL_001.nc".toList)).map
                  List.length = some 3)
        ∧ (downloadOne (fun _ => [7, 8, 9]) ⟨[]⟩
            "https://host/EMIT_RFL_001.nc".toList).2
          = ["https://host/EMIT_RFL_001.nc".toList]) :=
  ⟨rfl, C2_download_creates_file (fun _ => [7, 8, 9]) ⟨[]⟩
    "https://host/EMIT_RFL_001.nc".toList rfl⟩

/-- Claim C3: when a file already exists at the destination path —
complete or partially written — the download step leaves the filesystem
unchanged and issues no request. -/
theorem C3_skip_existing (remote : Str → Bytes) (fs : FileSystem)
    (url : Str) (h : fs.isfile (destPath url) = true) :
    downloadOne remote fs url = (fs, []) := by
  rw [downloadOne, if_pos h]

/-- Witness for C3 at a concrete input: a filesystem already holding a
one-byte (partially written) file at the destination path. -/
theorem C3_skip_existing_witness :
    (FileSystem.mk [(destPath "https://host/EMIT_RFL_001.nc".toList, [1])]).isfile
        (destPath "https://host/EMIT_RFL_001.nc".toList) = true
      ∧ downloadOne (fun _ => [7, 8, 9])
          ⟨[(destPath "https://host/EMIT_RFL_001.nc".toList, [1])]⟩
          "https://host/EMIT_RFL_001.nc".toList
        = (⟨[(destPath "https://host/EMIT_RFL_001.nc".toList, [1])]⟩, []) :=
  ⟨by decide, C3_skip_existing (fun _ => [7, 8, 9])
    ⟨[(destPath "https://host/EMIT_RFL_001.nc".toList, [1])]⟩
    "https://host/EMIT_RFL_001.nc".toList (by decide)⟩

theorem downloadOne_isfile (remote : Str → Bytes) (fs : FileSystem)
    (url p : Str) :
    (downloadOne remote fs url).1.isfile p = true
      ↔ (fs.isfile p = true ∨ p = destPath url) := by
  rw [downloadOne]
  by_cases h : fs.isfile (destPath url) = true
  · rw [if_pos h]
    constructor
    · exact Or.inl
    · rintro (hp | rfl)
      · exact hp
      · exact h
  · rw [if_neg h]
    by_cases hp : p = destPath url
    · simp [FileSystem.isfile, FileSystem.lookup, List.lookup, hp]
    · have hbeq : (p == destPath url) = false := by simp [hp]
      simp [FileSystem.isfile, FileSystem.lookup, List.lookup, hbeq, hp]

/-- Claim C8: after the download loop, a path holds a file exactly when it
already did before, or it is the fixed data directory followed by the last
path segment of one of the asset URLs — every downloaded asset lands in
the data directory under its URL's final segment, one file per URL. -/
theorem C8_download_paths (remote : Str → Bytes) (fs : FileSystem)
    (links : List Str) (p : Str) :
    (downloadLoop remote fs links).1.isfile p = true
      ↔ (fs.isfile p = true ∨ ∃ url ∈ links, p = dataDir ++ lastSegment url) := by
  induction links generalizing fs with
  | nil => simp [downloadLoop]
  | cons url rest ih =>
    rw [downloadLoop]
    show (downloadLoop remote (downloadOne remote fs url).1 rest).1.isfile p = true ↔ _
    rw [ih, downloadOne_isfile]
    simp only [List.mem_cons, destPath]
    constructor
    · rintro ((hf | rfl) | ⟨u, hu, rfl⟩)
      · exact Or.inl hf
      · exact Or.inr ⟨url, Or.inl rfl, rfl⟩
      · exact Or.inr ⟨u, Or.inr hu, rfl⟩
    · rintro (hf | ⟨u, (rfl | hu), rfl⟩)
      · exact Or.inl (Or.inl hf)
      · exact Or.inl (Or.inr rfl)
      · exact Or.inr ⟨u, hu, rfl⟩

/-- Claim C9: the streaming step reads `filtered_asset_links[0]`
unconditionally; it yields a URL exactly when the filtered list is
non-empty (namely its head), and on an empty filtered list it fails with
an `IndexError`, not a descriptive error or a no-op. -/
theorem C9_stream_head_unconditional (links : List Str) :
    (∀ u : Str, streamUrl links = Except.ok u ↔ links.head? = some u)
      ∧ (streamUrl links = Except.error PyError.indexError ↔ links = []) := by
  cases links <;> simp [streamUrl, listGetItem]

theorem foldl_min_spec (g : ℚ × ℚ → ℚ) (vs : List (ℚ × ℚ)) (a : ℚ) :
    (vs.foldl (fun x p => min x (g p)) a = a
        ∨ vs.foldl (fun x p => min x (g p)) a ∈ vs.map g)
      ∧ vs.foldl (fun x p => min x (g p)) a ≤ a
      ∧ ∀ p ∈ vs, vs.foldl (fun x p => min x (g p)) a ≤ g p := by
  induction vs generalizing a with
  | nil => exact ⟨Or.inl rfl, le_refl a, by simp⟩
  | cons q rest ih =>
    obtain ⟨hmem, hle, hall⟩ := ih (min a (g q))
    simp only [List.foldl_cons, List.map_cons, List.mem_cons]
    refine ⟨?_, ?_, ?_⟩
    · rcases hmem with h | h
      · rcases min_choice a (g q) with hc | hc
        · exact Or.inl (h.trans hc)
        · exact Or.inr (Or.inl (h.trans hc))
      · exact Or.inr (Or.inr h)
    · exact hle.trans (min_le_left a (g q))
    · intro p hp
      rcases hp with rfl | hp
      · exact hle.trans (min_le_right a (g p))
      · exact hall p hp

theorem foldl_max_spec (g : ℚ × ℚ → ℚ) (vs : List (ℚ × ℚ)) (a : ℚ) :
    (vs.foldl (fun x p => max x (g p)) a = a
        ∨ vs.foldl (fun x p => max x (g p)) a ∈ vs.map g)
      ∧ a ≤ vs.foldl (fun x p => max x (g p)) a
      ∧ ∀ p ∈ vs, g p ≤ vs.foldl (fun x p => max x (g p)) a := by
  induction vs generalizing a with
  | nil => exact ⟨Or.inl rfl, le_refl a, by simp⟩
  | cons q rest ih =>
    obtain ⟨hmem, hle, hall⟩ := ih (max a (g q))
    simp only [List.foldl_cons, List.map_cons, List.mem_cons]
    refine ⟨?_, ?_, ?_⟩
    · rcases hmem with h | h
      · rcases max_choice a (g q) with hc | hc
        · exact Or.inl (h.trans hc)
        · exact Or.inr (Or.inl (h.trans hc))
      · exact Or.inr (Or.inr h)
    · exact (le_max_left a (g q)).trans hle
    · intro p hp
      rcases hp with rfl | hp
      · exact (le_max_right a (g p)).trans hle
      · exact hall p hp

theorem min_component_spec (g : ℚ × ℚ → ℚ) (v : ℚ × ℚ)
    (vs : List (ℚ × ℚ)) :
    vs.foldl (fun x p => min x (g p)) (g v) ∈ (v :: vs).map g
      ∧ ∀ x ∈ (v :: vs).map g, vs.foldl (fun x p => min x (g p)) (g v) ≤ x := by
  obtain ⟨hmem, hle, hall⟩ := foldl_min_spec g vs (g v)
  simp only [List.map_cons, List.mem_cons]
  constructor
  · rcases hmem with h | h
    · exact Or.inl h
    · exact Or.inr h
  · intro x hx
    rcases hx with rfl | hx
    · exact hle
    · obtain ⟨p, hp, rfl⟩ := List.mem_map.mp hx
      exact hall p hp

theorem max_component_spec (g : ℚ × ℚ → ℚ) (v : ℚ × ℚ)
    (vs : List (ℚ × ℚ)) :
    vs.foldl (fun x p => max x (g p)) (g v) ∈ (v :: vs).map g
      ∧ ∀ x ∈ (v :: vs).map g, x ≤ vs.foldl (fun x p => max x (g p)) (g v) := by
  obtain ⟨hmem, hle, hall⟩ := foldl_max_spec g vs (g v)
  simp only [List.map_cons, List.mem_cons]
  constructor
  · rcases hmem with h | h
    · exact Or.inl h
    · exact Or.inr h
  · intro x hx
    rcases hx with rfl | hx
    · exact hle
    · obtain ⟨p, hp, rfl⟩ := List.mem_map.mp hx
      exact hall p hp

theorem totalBounds_components (vs : List (ℚ × ℚ)) (a b c d : ℚ) :
    vs.foldl
        (fun t p => (min t.1 p.1, min t.2.1 p.2, max t.2.2.1 p.1, max t.2.2.2 p.2))
        (a, b, c, d)
      = (vs.foldl (fun x p => min x p.1) a, vs.foldl (fun x p => min x p.2) b,
         vs.foldl (fun x p => max x p.1) c, vs.foldl (fun x p => max x p.2) d) := by
  induction vs generalizing a b c d with
  | nil => rfl
  | cons q rest ih =>
    simp only [List.foldl_cons]
    exact ih (min a q.1) (min b q.2) (max c q.1) (max d q.2)

/-- Claim C5: each component of the bounding box derived from a polygon's
total extent is attained at a polygon vertex and bounds all vertices:
the 4-tuple is `(min_lon, min_lat, max_lon, max_lat)` component-wise over
all polygon vertices. -/
theorem C5_total_bounds (v : ℚ × ℚ) (vs : List (ℚ × ℚ)) :
    ((totalBounds v vs).1 ∈ (v :: vs).map Prod.fst
        ∧ ∀ x ∈ (v :: vs).map Prod.fst, (totalBounds v vs).1 ≤ x)
      ∧ ((totalBounds v vs).2.1 ∈ (v :: vs).map Prod.snd
        ∧ ∀ y ∈ (v :: vs).map Prod.snd, (totalBounds v vs).2.1 ≤ y)
      ∧ ((totalBounds v vs).2.2.1 ∈ (v :: vs).map Prod.fst
        ∧ ∀ x ∈ (v :: vs).map Prod.fst, x ≤ (totalBounds v vs).2.2.1)
      ∧ ((totalBounds v vs).2.2.2 ∈ (v :: vs).map Prod.snd
        ∧ ∀ y ∈ (v :: vs).map Prod.snd, y ≤ (totalBounds v vs).2.2.2) := by
  have h : totalBounds v vs
      = (vs.foldl (fun x p => min x p.1) v.1, vs.foldl (fun x p => min x p.2) v.2,
         vs.foldl (fun x p => max x p.1) v.1, vs.foldl (fun x p => max x p.2) v.2) :=
    totalBounds_components vs v.1 v.2 v.1 v.2
  rw [h]
  exact ⟨min_component_spec Prod.fst v vs, min_component_spec Prod.snd v vs,
    max_component_spec Prod.fst v vs, max_component_spec Prod.snd v vs⟩

theorem validateSpatial_ok (sp : SpatialParam) (h : sp.wellFormed) :
    validateSpatial sp = Except.ok () := by
  cases sp with
  | point cs => exact if_pos h
  | boundingBox cs =>
    rcases cs with _ | ⟨a, _ | ⟨b, _ | ⟨c, _ | ⟨d, _ | rest⟩⟩⟩⟩ <;>
      first
        | exact absurd h not_false
        | exact if_pos h
  | polygon cs => exact if_pos h

theorem validateSpatial_err (sp : SpatialParam) (h : ¬ sp.wellFormed) :
    ∃ e : Str, validateSpatial sp = Except.error e ∧ e ≠ [] := by
  cases sp with
  | point cs =>
    exact ⟨"point must be a pair of floats lon, lat".toList, if_neg h, by decide⟩
  | boundingBox cs =>
    rcases cs with _ | ⟨a, _ | ⟨b, _ | ⟨c, _ | ⟨d, _ | rest⟩⟩⟩⟩ <;>
      first
        | exact ⟨"bounding box must be 4 floats".toList, rfl, by decide⟩
        | exact ⟨"bounding box must be ordered min-lon, min-lat, max-lon, max-lat".toList,
            if_neg h, by decide⟩
  | polygon cs =>
    exact ⟨"polygon must be a closed ring of at least 4 coordinate pairs, first equal to last".toList,
      if_neg h, by decide⟩

/-- Claim C7: the modelled granule search fails fast with a descriptive
(non-empty) error on any malformed spatial filter or on a temporal range
whose start is after its end, and a well-formed search matching zero
granules returns the empty sequence as a valid, non-error outcome. -/
theorem C7_search_fail_fast (catalog : SearchParams → List (List Str))
    (ps : SearchParams) :
    (¬ ps.spatial.wellFormed ∨ ¬ ps.temporal.1 ≤ ps.temporal.2 →
        ∃ e : Str, searchData catalog ps = Except.error e ∧ e ≠ [])
      ∧ (ps.spatial.wellFormed → ps.temporal.1 ≤ ps.temporal.2 →
          catalog ps = [] → searchData catalog ps = Except.ok []) := by
  constructor
  · intro hbad
    by_cases hw : ps.spatial.wellFormed
    · rcases hbad with hbad | hbad
      · exact absurd hw hbad
      · refine ⟨"temporal range start must not be after end".toList, ?_, by decide⟩
        rw [searchData, validateSpatial_ok _ hw, validateTemporal, if_neg hbad]
    · obtain ⟨e, he, hne⟩ := validateSpatial_err _ hw
      exact ⟨e, by rw [searchData, he], hne⟩
  · intro hw ht hcat
    rw [searchData, validateSpatial_ok _ hw, validateTemporal, if_pos ht, hcat,
      List.take_nil]

/-- Witness for C7: a one-float point is rejected with a non-empty error,
and a well-formed point search over an empty catalog returns `ok []`. -/
theorem C7_search_fail_fast_witness :
    (∃ e : Str,
        searchData (fun _ => []) ⟨SpatialParam.point [1], (0, 1), 100⟩
          = Except.error e ∧ e ≠ [])
      ∧ searchData (fun _ => []) ⟨SpatialParam.point [1, 2], (0, 1), 100⟩
          = Except.ok [] :=
  ⟨(C7_search_fail_fast (fun _ => []) ⟨SpatialParam.point [1], (0, 1), 100⟩).1
      (Or.inl (by simp [SpatialParam.wellFormed])),
    (C7_search_fail_fast (fun _ => []) ⟨SpatialParam.point [1, 2], (0, 1), 100⟩).2
      (by simp [SpatialParam.wellFormed]) (by norm_num) rfl⟩

end Emit
